import Mathlib

/-!
Shallow embedding of `fuzzer/diff_fuzzer/cairo_program_gen.py`.

Modelling conventions:
* Python strings are represented as `String` / `List Char`; the Python string
  primitives used by the source (`find`, slicing, `in`, `split`, `split(sep)`)
  are embedded as executable functions with Python's exact semantics
  (`find` returns -1 on failure, a negative start index counts from the end,
  slices clamp).
* Python dicts are insertion-ordered association lists (`Dict` below):
  assigning an existing key keeps its position, a new key is appended;
  `d1 | d2` keeps the left order and lets the right value win.
* Python sets of field-name strings are represented canonically as sorted
  duplicate-free lists, so set equality is list equality.  The source's set
  iteration order (used by `tuple(v)` and by field iteration in the emitted
  text) is unspecified in CPython; the model fixes the canonical sorted
  order.  The conversion `tuple(v)` at the end of `classify_variables` is
  the identity on this canonical representation, so `Shape` has a single
  field-set constructor.
* Multi-line generated text is represented directly as the list of its
  lines, mirroring the final `.split("\n")` of the source; a Python
  `"\n".join(pieces)` of single-line pieces is the list of the pieces and
  `"\n".join([])` is the single empty line (`joinedLines`, `joinBlocks`).
* An uncaught Python `KeyError` (a `structs_dict[...]` lookup miss) is
  modelled by `Option`: `generate_cairo_hint_program` returns `none`
  exactly where the source raises.
-/

/-- Python `c in patterns` set of characters replaced by `multi_replace`
in `classify_variables`: `'",)]}('`. -/
def stripSet : List Char := ['\x22', ',', ')', ']', '\x7d', '(']

/-- Embeds `multi_replace(in_str, patterns)`: replace each character of
`patterns` by a space. -/
def multi_replace (in_str patterns : List Char) : List Char :=
  in_str.map (fun c => if patterns.contains c then ' ' else c)

/-- Python `sub in s` (substring containment). -/
def pyIn (sub : List Char) : List Char → Bool
  | [] => sub.isPrefixOf ([] : List Char)
  | a :: t => sub.isPrefixOf (a :: t) || pyIn sub t

/-- First index (from the front) where `sub` starts in `s`, if any. -/
def pyFindPos (sub : List Char) : List Char → Option Nat
  | [] => if sub.isPrefixOf ([] : List Char) then some 0 else none
  | a :: t =>
    if sub.isPrefixOf (a :: t) then some 0 else (pyFindPos sub t).map (· + 1)

/-- Python `s.find(sub)`: index of the first occurrence, `-1` if absent. -/
def pyFind (s sub : List Char) : Int :=
  match pyFindPos sub s with
  | some n => (n : Int)
  | none => -1

/-- Python `s.find(sub, start)`.  A negative `start` counts from the end of
the string and is clamped at 0, as in CPython. -/
def pyFindFrom (s sub : List Char) (start : Int) : Int :=
  let L : Int := (s.length : Int)
  let st : Int := if start < 0 then max (L + start) 0 else min start L
  match pyFindPos sub (s.drop st.toNat) with
  | some n => st + (n : Int)
  | none => -1

/-- Python `s[a:b]` (step 1): negative indices count from the end, bounds
are clamped. -/
def pySlice (s : List Char) (a b : Int) : List Char :=
  let L : Int := (s.length : Int)
  let a2 : Nat := (if a < 0 then max (L + a) 0 else min a L).toNat
  let b2 : Nat := (if b < 0 then max (L + b) 0 else min b L).toNat
  (s.take b2).drop a2

/-- One step of `splitP`: prepend character `a` to a split result. -/
def splitPCons (p : Char → Bool) (a : Char) : List (List Char) → List (List Char)
  | [] => [[a]]
  | g :: gs => if p a then [] :: g :: gs else (a :: g) :: gs

/-- Split a character list at every character satisfying `p`, keeping empty
groups: the embedding of Python `split(sep)` for a one-character separator. -/
def splitP (p : Char → Bool) : List Char → List (List Char)
  | [] => [[]]
  | a :: as => splitPCons p a (splitP p as)

/-- The whitespace test of Python `str.split()` (ASCII range). -/
def pyIsSpace (c : Char) : Bool :=
  c = ' ' || c = '\t' || c = '\n' || c = '\r' || c = '\x0b' || c = '\x0c'

/-- Python `s.split()`: split on whitespace runs, dropping empty tokens. -/
def pySplitWs (s : List Char) : List (List Char) :=
  (splitP pyIsSpace s).filter (fun v => v ≠ [])

/-- The inferred shape of a hint variable: the Python value is either the
string `"felt"` or a set of field names (canonically sorted, see header). -/
inductive Shape
  | felt : Shape
  | fields : List String → Shape
deriving DecidableEq, Repr

/-- An insertion-ordered Python dict from variable names to shapes. -/
abbrev Dict := List (String × Shape)

/-- `d[k] = v` on an insertion-ordered dict: an existing key keeps its
position, a new key is appended at the end. -/
def dictSet (d : Dict) (k : String) (v : Shape) : Dict :=
  if d.any (fun p => p.1 = k) then
    d.map (fun p => if p.1 = k then (k, v) else p)
  else
    d ++ [(k, v)]

/-- `d.get(k)`: value of the first entry with key `k`. -/
def dictGet? (d : Dict) (k : String) : Option Shape :=
  (d.find? (fun p => p.1 = k)).map (fun p => p.2)

/-- Python `a | b` on dicts: keys of `a` in order (values from `b` where
the key is shared), then the keys only in `b`, in order. -/
def dictMerge (a b : Dict) : Dict :=
  (a.map (fun p =>
    match dictGet? b p.1 with
    | some v => (p.1, v)
    | none => p))
  ++ b.filter (fun p => ¬ a.any (fun q => q.1 = p.1))

/-- Lexicographic order on character lists by code point, used only to fix
the canonical order of the field-set representation. -/
def charListLt : List Char → List Char → Bool
  | [], [] => false
  | [], _ :: _ => true
  | _ :: _, [] => false
  | a :: as, b :: bs =>
    if a.toNat < b.toNat then true
    else if b.toNat < a.toNat then false
    else charListLt as bs

/-- Sorted insertion into a canonical field-name list. -/
def insertSorted (f : String) : List String → List String
  | [] => [f]
  | x :: xs =>
    if charListLt f.data x.data then f :: x :: xs else x :: insertSorted f xs

/-- Python `set.add`: no change if present, otherwise canonical insertion. -/
def setAdd (fs : List String) (f : String) : List String :=
  if fs.contains f then fs else insertSorted f fs

/-- Embeds `var_in_pack(line, stripped_var)`: check whether `ids.` ++ the
stripped variable occurs textually between `pack(` and the next `)`. -/
def var_in_pack (line stripped_var : List Char) : Bool :=
  if pyIn ("pack(".data) line then
    let var := "ids.".data ++ stripped_var
    let pack_start := pyFind line ("pack(".data)
    let pack_end := pyFindFrom line (")".data) pack_start
    pyIn var (pySlice line pack_start pack_end)
  else
    false

/-- The body of the per-token branch of `classify_variables`: strip the
text before the first `.` (`var.split(".")[1:]`), then the
pack / bare-felt / field-accumulation cases.  The `[]` branch is
unreachable because every candidate token contains `"ids."`. -/
def processVar (line var : List Char) (d : Dict) : Dict :=
  match (splitP (fun c => c = '.') var).drop 1 with
  | [] => d
  | f0 :: rest =>
    let name := String.mk f0
    if var_in_pack line f0 then
      dictSet d name (Shape.fields ["d0", "d1", "d2"])
    else
      match rest with
      | [] => dictSet d name Shape.felt
      | f1 :: _ =>
        match dictGet? d name with
        | none => dictSet d name (Shape.fields [String.mk f1])
        | some Shape.felt => dictSet d name (Shape.fields [String.mk f1])
        | some (Shape.fields fs) => dictSet d name (Shape.fields (setAdd fs (String.mk f1)))

/-- Direction choice and insertion for one token of one cleaned line:
the chained comparison
`line.find(var) < line.find("=") < line.find(var, line.find("="))`
selects inout, else `line.find("=") < line.find(var)` selects input,
else output. -/
def classifyToken (line : List Char) (st : Dict × Dict × Dict)
    (var : List Char) : Dict × Dict × Dict :=
  let i := pyFind line var
  let e := pyFind line ("=".data)
  let j := pyFindFrom line var e
  if i < e ∧ e < j then (st.1, st.2.1, processVar line var st.2.2)
  else if e < i then (processVar line var st.1, st.2.1, st.2.2)
  else (st.1, processVar line var st.2.1, st.2.2)

/-- One cleaned line of the classifier loop: whitespace-tokenize, keep the
tokens containing `"ids."`, and fold `classifyToken` over them. -/
def classifyLine (st : Dict × Dict × Dict) (line : List Char) :
    Dict × Dict × Dict :=
  let toks := (pySplitWs line).filter (fun v => pyIn ("ids.".data) v)
  toks.foldl (classifyToken line) st

/-- The classifier loop before the final merge: keep the lines containing
`"ids."`, strip the punctuation set to spaces, and fold over the lines.
Note the stripped line is what every later search (including
`var_in_pack`) operates on. -/
def classify_variables_raw (hint_code : String) : Dict × Dict × Dict :=
  let lines :=
    ((splitP (fun c => c = '\n') hint_code.data).filter
      (fun l => pyIn ("ids.".data) l)).map
      (fun l => multi_replace l stripSet)
  lines.foldl classifyLine ([], [], [])

/-- Embeds `classify_variables(hint_code)`.  The `tuple(v)` finalization is
the identity on the canonical `Shape` representation; the returned input
dict is `input_vars | inout_vars`. -/
def classify_variables (hint_code : String) : Dict × Dict × Dict :=
  let r := classify_variables_raw hint_code
  (dictMerge r.1 r.2.2, r.2.1, r.2.2)

/-- First-seen-order deduplication: the model of the Python set
`{ v for v in (input_vars | output_vars).values() }` (its CPython
iteration order is unspecified; the model fixes first-seen order, which
only renumbers the synthetic type names). -/
def dedupFirst (seen : List Shape) : List Shape → List Shape
  | [] => []
  | a :: as =>
    if a ∈ seen then dedupFirst seen as
    else a :: dedupFirst (a :: seen) as

/-- `{ v : "MyStruct" + str(i) for (i, v) in enumerate(fields) if v != "felt" }`:
the enumeration index advances over every element, the `felt` elements are
skipped. -/
def numberShapes (i : Nat) : List Shape → List (Shape × String)
  | [] => []
  | s :: ss =>
    if s = Shape.felt then numberShapes (i + 1) ss
    else (s, "MyStruct" ++ toString i) :: numberShapes (i + 1) ss

/-- The distinct shape values of `(input_vars | output_vars)`. -/
def fieldsOf (i o : Dict) : List Shape :=
  dedupFirst [] ((dictMerge i o).map (fun p => p.2))

/-- `structs_dict`: each distinct non-`felt` shape is assigned a synthetic
type name, and the entry `"felt" : "felt"` is added at the end. -/
def structsDict (i o : Dict) : List (Shape × String) :=
  numberShapes 0 (fieldsOf i o) ++ [(Shape.felt, "felt")]

/-- `structs_dict[s]`, as a partial lookup: `none` models a `KeyError`. -/
def structLookup (sd : List (Shape × String)) (s : Shape) : Option String :=
  (sd.find? (fun p => p.1 = s)).map (fun p => p.2)

/-- The field-name list of a shape (iteration over the tuple key). -/
def fieldListOf : Shape → List String
  | Shape.felt => []
  | Shape.fields fs => fs

/-- `"\n".join(pieces)` of single-line pieces, as a line list: the join of
an empty list is the one empty line. -/
def joinedLines : List String → List String
  | [] => [""]
  | ls => ls

/-- `"\n".join(blocks)` of multi-line blocks already given as line lists. -/
def joinBlocks : List (List String) → List String
  | [] => [""]
  | bs => bs.flatten

/-- The lines of one `struct {name} {{\n{fields}\n}}` block, with one
`\t{field}: felt,` line per field of the shape key. -/
def structBlockLines (name : String) (fs : List String) : List String :=
  ["struct " ++ name ++ " \x7b"]
  ++ joinedLines (fs.map (fun f => "\t" ++ f ++ ": felt,"))
  ++ ["\x7d"]

/-- `declared_structs.split("\n")`: one block per `structs_dict` entry
whose name is not `"felt"`, in dict order. -/
def declLines (i o : Dict) : List String :=
  joinBlocks
    (((structsDict i o).filter (fun p => p.2 ≠ "felt")).map
      (fun p => structBlockLines p.2 (fieldListOf p.1)))

/-- Map a partial per-entry function over a list, failing if any entry
fails (the model of a loop that can raise `KeyError`). -/
def mapOpt (f : α → Option β) : List α → Option (List β)
  | [] => some []
  | a :: as =>
    match f a, mapOpt f as with
    | some b, some bs => some (b :: bs)
    | _, _ => none

/-- One `let` line of `main` for one input entry: the scalar placeholder
when the looked-up type name is `"felt"`, otherwise the constructor call
with one empty keyword assignment per field. -/
def assignLine (sd : List (Shape × String)) (p : String × Shape) :
    Option String :=
  (structLookup sd p.2).map (fun t =>
    if t = "felt" then "\tlet " ++ p.1 ++ " =;"
    else
      "\tlet " ++ p.1 ++ " = " ++ t ++ "("
      ++ String.intercalate ", " ((fieldListOf p.2).map (fun f => f ++ "="))
      ++ ");")

/-- `main_func.split("\n")`: the `func main()` header, one assignment line
per input entry, the `hint_func` call on all input names, and the bare
return. -/
def mainLines (i o : Dict) : Option (List String) :=
  (mapOpt (assignLine (structsDict i o)) i).map (fun asg =>
    ["func main() \x7b"] ++ asg ++
    ["\thint_func(" ++ String.intercalate ", " (i.map (fun p => p.1)) ++ ");",
     "\treturn();", "\x7d"])

/-- One `{var}: {type}` parameter of the hint-routine signature. -/
def paramText (sd : List (Shape × String)) (p : String × Shape) :
    Option String :=
  (structLookup sd p.2).map (fun t => p.1 ++ ": " ++ t)

/-- The type names of the `output_vars | inout_vars` entries, in order. -/
def combinedNames (sd : List (Shape × String)) (o io : Dict) :
    Option (List String) :=
  mapOpt (fun p => structLookup sd p.2) (dictMerge o io)

/-- The hint-routine signature: parenthesized input parameters, then the
return type, which is the bare joined name when `output_vars | inout_vars`
has exactly one entry and the parenthesized comma join otherwise. -/
def signatureText (i o io : Dict) : Option String :=
  match mapOpt (paramText (structsDict i o)) i, combinedNames (structsDict i o) o io with
  | some ps, some ns =>
    some (if (dictMerge o io).length = 1 then
            "(" ++ String.intercalate ", " ps ++ ") -> " ++ String.join ns
          else
            "(" ++ String.intercalate ", " ps ++ ") -> ("
            ++ String.intercalate ", " ns ++ ")")
  | _, _ => none

/-- One `local` declaration line for one output entry. -/
def localLine (sd : List (Shape × String)) (p : String × Shape) :
    Option String :=
  (structLookup sd p.2).map (fun t => "\tlocal " ++ p.1 ++ ": " ++ t ++ ";")

/-- `hint_func.split("\n")`: header with signature, `alloc_locals`, the
local declarations, the hint code verbatim between the `%{` / `%}`
markers, and the return of the `output_vars | inout_vars` names. -/
def hintFuncLines (hint_code : String) (i o io : Dict) :
    Option (List String) :=
  match signatureText i o io, mapOpt (localLine (structsDict i o)) o with
  | some sig, some locs =>
    some (["func hint_func" ++ sig ++ " \x7b", "\talloc_locals;"]
          ++ joinedLines locs
          ++ ["%\x7b"]
          ++ (splitP (fun c => c = '\n') hint_code.data).map String.mk
          ++ ["%\x7d",
              "\treturn(" ++ String.intercalate ", " ((dictMerge o io).map (fun p => p.1)) ++ ");",
              "\x7d"])
  | _, _ => none

/-- Embeds `generate_cairo_hint_program(hint_code)`: classify, then
concatenate the declaration, `main` and `hint_func` line blocks.  `none`
models the uncaught `KeyError` of a failed `structs_dict` lookup. -/
def generate_cairo_hint_program (hint_code : String) : Option (List String) :=
  let r := classify_variables hint_code
  match mainLines r.1 r.2.1, hintFuncLines hint_code r.1 r.2.1 r.2.2 with
  | some m, some h => some (declLines r.1 r.2.1 ++ m ++ h)
  | _, _ => none

/-! ### Helper lemmas about the embedded string primitives -/

theorem isPrefixOf_ex {sub s : List Char} (h : sub.isPrefixOf s = true) :
    ∃ y, s = sub ++ y := by
  induction sub generalizing s with
  | nil => exact ⟨s, rfl⟩
  | cons a as ih =>
    cases s with
    | nil => simp [List.isPrefixOf] at h
    | cons b bs =>
      simp only [List.isPrefixOf, Bool.and_eq_true, beq_iff_eq] at h
      obtain ⟨y, hy⟩ := ih h.2
      exact ⟨y, by simp [h.1, hy]⟩

theorem isPrefixOf_app (sub y : List Char) : sub.isPrefixOf (sub ++ y) = true := by
  induction sub with
  | nil => simp [List.isPrefixOf]
  | cons a as ih => simp [List.isPrefixOf, ih]

theorem pyIn_head {sub s : List Char} (h : sub.isPrefixOf s = true) :
    pyIn sub s = true := by
  cases s <;> simp [pyIn, h]

theorem pyIn_parts (x sub y : List Char) : pyIn sub (x ++ sub ++ y) = true := by
  induction x with
  | nil => exact pyIn_head (isPrefixOf_app sub y)
  | cons a as ih => simpa [pyIn] using Or.inr ih

theorem pyIn_ex {sub s : List Char} (h : pyIn sub s = true) :
    ∃ x y, s = x ++ sub ++ y := by
  induction s with
  | nil =>
    simp only [pyIn] at h
    obtain ⟨y, hy⟩ := isPrefixOf_ex h
    exact ⟨[], y, hy⟩
  | cons a t ih =>
    simp only [pyIn, Bool.or_eq_true] at h
    cases h with
    | inl h =>
      obtain ⟨y, hy⟩ := isPrefixOf_ex h
      exact ⟨[], y, hy⟩
    | inr h =>
      obtain ⟨x, y, hy⟩ := ih h
      exact ⟨a :: x, y, by simp [hy]⟩

theorem splitP_ne_nil (p : Char → Bool) (s : List Char) : splitP p s ≠ [] := by
  cases s with
  | nil => simp [splitP]
  | cons a as =>
    simp only [splitP]
    cases splitP p as with
    | nil => simp [splitPCons]
    | cons g gs => by_cases hp : p a <;> simp [splitPCons, hp]

theorem splitP_head_ex (p : Char → Bool) :
    ∀ (s : List Char) (g : List Char) (gs : List (List Char)),
      splitP p s = g :: gs → ∃ y, s = g ++ y := by
  intro s
  induction s with
  | nil =>
    intro g gs h
    injection h with h1 h2
    exact ⟨[], by simp [← h1]⟩
  | cons a as ih =>
    intro g gs h
    simp only [splitP] at h
    cases hr : splitP p as with
    | nil => exact absurd hr (splitP_ne_nil p as)
    | cons g2 gs2 =>
      rw [hr] at h
      simp only [splitPCons] at h
      by_cases hp : p a
      · rw [if_pos hp] at h
        injection h with h1 h2
        exact ⟨a :: as, by simp [← h1]⟩
      · rw [if_neg hp] at h
        injection h with h1 h2
        obtain ⟨y, hy⟩ := ih g2 gs2 hr
        exact ⟨y, by simp [← h1, hy]⟩

theorem splitP_mem_ex (p : Char → Bool) :
    ∀ (s l : List Char), l ∈ splitP p s → ∃ x y, s = x ++ l ++ y := by
  intro s
  induction s with
  | nil =>
    intro l hl
    simp only [splitP, List.mem_singleton] at hl
    exact ⟨[], [], by simp [hl]⟩
  | cons a as ih =>
    intro l hl
    simp only [splitP] at hl
    cases hr : splitP p as with
    | nil => exact absurd hr (splitP_ne_nil p as)
    | cons g2 gs2 =>
      rw [hr] at hl
      simp only [splitPCons] at hl
      by_cases hp : p a
      · rw [if_pos hp] at hl
        rcases List.mem_cons.mp hl with h1 | h2
        · exact ⟨[], a :: as, by simp [h1]⟩
        · obtain ⟨x, y, hy⟩ := ih l (by rw [hr]; exact h2)
          exact ⟨a :: x, y, by simp [hy]⟩
      · rw [if_neg hp] at hl
        rcases List.mem_cons.mp hl with h1 | h2
        · obtain ⟨y, hy⟩ := splitP_head_ex p as g2 gs2 hr
          exact ⟨[], y, by simp [h1, hy]⟩
        · obtain ⟨x, y, hy⟩ := ih l (by rw [hr]; exact List.mem_cons_of_mem g2 h2)
          exact ⟨a :: x, y, by simp [hy]⟩

theorem pack_not_in_cleaned (s : List Char) :
    pyIn ("pack(".data) (multi_replace s stripSet) = false := by
  cases hb : pyIn ("pack(".data) (multi_replace s stripSet) with
  | false => rfl
  | true =>
    exfalso
    obtain ⟨x, y, hy⟩ := pyIn_ex hb
    have hmem : '(' ∈ multi_replace s stripSet := by
      rw [hy]
      refine List.mem_append.mpr (Or.inl (List.mem_append.mpr (Or.inr ?_)))
      decide
    unfold multi_replace at hmem
    obtain ⟨c, _, hfc⟩ := List.mem_map.mp hmem
    by_cases hcon : stripSet.contains c = true
    · rw [if_pos hcon] at hfc
      exact absurd hfc (by decide)
    · rw [if_neg hcon] at hfc
      rw [hfc] at hcon
      exact hcon (by decide)

theorem strApp_empty (a : String) : a ++ "" = a := by
  apply String.ext
  rw [String.data_append]
  exact List.append_nil a.data

theorem strApp_assoc (a b c : String) : a ++ b ++ c = a ++ (b ++ c) := by
  apply String.ext
  simp [String.data_append, List.append_assoc]

theorem strJoin_one (t : String) : String.join [t] = t := by
  have h : String.join [t] = "" ++ t := rfl
  rw [h]
  apply String.ext
  rw [String.data_append]
  rfl

theorem dictGet?_eq_none_iff (d : Dict) (n : String) :
    dictGet? d n = none ↔ ∀ p ∈ d, p.1 ≠ n := by
  simp [dictGet?, Option.map_eq_none', List.find?_eq_none]

theorem dictMerge_get_none (a b : Dict) (n : String)
    (ha : dictGet? a n = none) (hb : dictGet? b n = none) :
    dictGet? (dictMerge a b) n = none := by
  rw [dictGet?_eq_none_iff] at ha hb ⊢
  intro p hp
  unfold dictMerge at hp
  rcases List.mem_append.mp hp with h1 | h2
  · obtain ⟨q, hq, hfq⟩ := List.mem_map.mp h1
    have hk : p.1 = q.1 := by
      rw [← hfq]; cases dictGet? b q.1 <;> rfl
    rw [hk]; exact ha q hq
  · exact hb p (List.mem_of_mem_filter h2)

theorem mapOpt_isSome (f : α → Option β) (l : List α)
    (h : ∀ a ∈ l, (f a).isSome = true) : (mapOpt f l).isSome = true := by
  induction l with
  | nil => rfl
  | cons a as ih =>
    obtain ⟨b, hb⟩ := Option.isSome_iff_exists.mp (h a (List.mem_cons_self a as))
    obtain ⟨bs, hbs⟩ :=
      Option.isSome_iff_exists.mp (ih (fun x hx => h x (List.mem_cons_of_mem a hx)))
    simp [mapOpt, hb, hbs]

theorem mapOpt_len (f : α → Option β) :
    ∀ (l : List α) (bs : List β), mapOpt f l = some bs → bs.length = l.length := by
  intro l
  induction l with
  | nil =>
    intro bs h
    simp only [mapOpt] at h
    injection h with h1
    simp [← h1]
  | cons a as ih =>
    intro bs h
    simp only [mapOpt] at h
    cases hfa : f a with
    | none => rw [hfa] at h; simp at h
    | some b =>
      cases hma : mapOpt f as with
      | none => rw [hfa, hma] at h; simp at h
      | some bs2 =>
        rw [hfa, hma] at h
        simp only [] at h
        injection h with h1
        rw [← h1]
        simp [ih bs2 hma]

theorem dedupFirst_mem :
    ∀ (l seen : List Shape) (s : Shape), s ∈ l → s ∉ seen → s ∈ dedupFirst seen l := by
  intro l
  induction l with
  | nil => intro seen s h; simp at h
  | cons a as ih =>
    intro seen s hs hns
    simp only [dedupFirst]
    rcases List.mem_cons.mp hs with h1 | h2
    · subst h1
      rw [if_neg hns]
      exact List.mem_cons_self s _
    · by_cases hm : a ∈ seen
      · rw [if_pos hm]
        exact ih seen s h2 hns
      · rw [if_neg hm]
        by_cases hsa : s = a
        · subst hsa; exact List.mem_cons_self s _
        · refine List.mem_cons_of_mem a (ih (a :: seen) s h2 ?_)
          simp [List.mem_cons, hsa, hns]

theorem numberShapes_mem :
    ∀ (l : List Shape) (k : Nat) (s : Shape), s ∈ l → s ≠ Shape.felt →
      ∃ nm, (s, nm) ∈ numberShapes k l := by
  intro l
  induction l with
  | nil => intro k s h; simp at h
  | cons a as ih =>
    intro k s hs hne
    simp only [numberShapes]
    rcases List.mem_cons.mp hs with h1 | h2
    · subst h1
      rw [if_neg hne]
      exact ⟨_, List.mem_cons_self _ _⟩
    · by_cases ha : a = Shape.felt
      · rw [if_pos ha]
        exact ih (k + 1) s h2 hne
      · rw [if_neg ha]
        obtain ⟨nm, hnm⟩ := ih (k + 1) s h2 hne
        exact ⟨nm, List.mem_cons_of_mem _ hnm⟩

theorem structLookup_isSome (i o : Dict) (s : Shape)
    (h : s = Shape.felt ∨ s ∈ (dictMerge i o).map (fun p => p.2)) :
    (structLookup (structsDict i o) s).isSome = true := by
  have hex : ∃ p ∈ structsDict i o, p.1 = s := by
    by_cases hf : s = Shape.felt
    · subst hf
      exact ⟨(Shape.felt, "felt"), by simp [structsDict], rfl⟩
    · rcases h with h | h
      · exact absurd h hf
      · have h1 : s ∈ fieldsOf i o := dedupFirst_mem _ [] s h (by simp)
        obtain ⟨nm, hnm⟩ := numberShapes_mem _ 0 s h1 hf
        refine ⟨(s, nm), ?_, rfl⟩
        unfold structsDict
        exact List.mem_append.mpr (Or.inl hnm)
  unfold structLookup
  cases hFind : (structsDict i o).find? (fun p => p.1 = s) with
  | none =>
    rw [List.find?_eq_none] at hFind
    obtain ⟨p, hp, hps⟩ := hex
    exact absurd (by simp [hps]) (hFind p hp)
  | some a => rfl

theorem structLookup_mem {i o : Dict} {s : Shape} {n : String}
    (h : structLookup (structsDict i o) s = some n) : (s, n) ∈ structsDict i o := by
  unfold structLookup at h
  cases hf : (structsDict i o).find? (fun p => p.1 = s) with
  | none => rw [hf] at h; simp at h
  | some a =>
    rw [hf] at h
    simp at h
    have ha := List.mem_of_find?_eq_some hf
    have hpa := List.find?_some hf
    simp at hpa
    rcases a with ⟨a1, a2⟩
    simp at hpa h
    rw [← hpa, ← h]
    exact ha

theorem header_mem_declLines {i o : Dict} {s : Shape} {n : String}
    (hl : structLookup (structsDict i o) s = some n) (hne : n ≠ "felt") :
    ("struct " ++ n ++ " \x7b") ∈ declLines i o := by
  have hmem := structLookup_mem hl
  have hmem2 : (s, n) ∈ (structsDict i o).filter (fun p => p.2 ≠ "felt") :=
    List.mem_filter.mpr ⟨hmem, by simp [hne]⟩
  have hblk : structBlockLines n (fieldListOf s) ∈
      ((structsDict i o).filter (fun p => p.2 ≠ "felt")).map
        (fun p => structBlockLines p.2 (fieldListOf p.1)) :=
    List.mem_map.mpr ⟨(s, n), hmem2, rfl⟩
  unfold declLines
  cases hbs : ((structsDict i o).filter (fun p => p.2 ≠ "felt")).map
      (fun p => structBlockLines p.2 (fieldListOf p.1)) with
  | nil => rw [hbs] at hblk; simp at hblk
  | cons b bs =>
    rw [hbs] at hblk
    simp only [joinBlocks]
    refine List.mem_flatten.mpr ⟨structBlockLines n (fieldListOf s), hblk, ?_⟩
    simp [structBlockLines]

/-! ### Statement-side definitions for the claims -/

/-- The synthetic (non-`felt`) type names referenced by the calling routine
and by the hint-routine signature: the successful struct-name lookups for
the input shapes and the combined output-inout shapes. -/
def referencedTypeNames (hint : String) : List String :=
  let r := classify_variables hint
  let sd := structsDict r.1 r.2.1
  ((r.1.map (fun p => p.2)) ++ (dictMerge r.2.1 r.2.2).map (fun p => p.2)).filterMap
    (fun s =>
      match structLookup sd s with
      | some n => if n = "felt" then none else some n
      | none => none)

/-- All shapes whose `structs_dict` lookup the assembler performs: the
merged input shapes, the output shapes, and the combined output-inout
shapes. -/
def shapesNeeded (hint : String) : List Shape :=
  let r := classify_variables hint
  r.1.map (fun p => p.2) ++ r.2.1.map (fun p => p.2)
    ++ (dictMerge r.2.1 r.2.2).map (fun p => p.2)

/-- The return-type rendering described by the specification: a single
bare type name when there is exactly one entry, otherwise a parenthesized
comma-joined list. -/
def returnTypeSpec : List String → String
  | [t] => t
  | ts => "(" ++ String.intercalate ", " ts ++ ")"

/-! ### The claims -/

/-- Claim C1.  The claim states that a variable passed to the special
`pack(...)` call is forced to the 3-field shape `{d0, d1, d2}`.  The code
(contradicting its own docstrings) can never detect a pack call: the
classifier replaces every `(` by a space before `var_in_pack` runs, so
`"pack(" not in line` always holds on the line that is searched, and the
concrete input `ids.r = pack(ids.v, PRIME)` classifies `v` as a plain
`felt` input instead. -/
theorem c1_pack_special_case_dead :
    (∀ (s v : List Char), var_in_pack (multi_replace s stripSet) v = false) ∧
    classify_variables "ids.r = pack(ids.v, PRIME)" =
      ([("v", Shape.felt)], [("r", Shape.felt)], []) := by
  constructor
  · intro s v
    unfold var_in_pack
    rw [pack_not_in_cleaned s]
    simp
  · decide

/-- Claim C2, counterexample.  For the two pack lines of the claimed
scenario the Output bucket is empty: `p` and `q` are not classified as
outputs. -/
theorem c2_output_bucket_empty :
    (classify_variables "pack(ids.p, PRIME)\npack(ids.q, PRIME)").2.1 = [] := by
  decide

/-- Claim C2, amended.  With no `=` on a line, `line.find("=")` is `-1`,
so the input branch of the fallback (`-1 < line.find(var)`) is taken, and
the pack special-case never fires on the punctuation-stripped line: both
`p` and `q` are classified as Input with scalar shape `felt`. -/
theorem c2_both_input_felt :
    classify_variables "pack(ids.p, PRIME)\npack(ids.q, PRIME)" =
      ([("p", Shape.felt), ("q", Shape.felt)], [], []) := by
  decide

/-- Claim C3, counterexample.  In `ids.a = ids.v.x + ids.v` the input
occurrence `ids.v.x` first establishes the field set `{x}` for `v`, and
the later bare occurrence `ids.v` in the same (input) bucket downgrades it
back to the scalar `felt`; dropping the bare occurrence keeps `{x}`. -/
theorem c3_bare_repeat_downgrades :
    classify_variables "ids.a = ids.v.x + ids.v" =
      ([("v", Shape.felt)], [("a", Shape.felt)], []) ∧
    classify_variables "ids.a = ids.v.x" =
      ([("v", Shape.fields ["x"])], [("a", Shape.felt)], []) :=
  ⟨by decide, by decide⟩

/-- Claim C3, amended.  A bare occurrence (a token with exactly one
component after the prefix) that is not inside a detected pack call
unconditionally assigns the scalar shape `felt` to the name in the chosen
bucket, overwriting any previously established field-set shape. -/
theorem c3_amended_bare_overwrites (line var : List Char) (d : Dict) (f0 : List Char)
    (hsplit : (splitP (fun c => c = '.') var).drop 1 = [f0])
    (hpack : var_in_pack line f0 = false) :
    processVar line var d = dictSet d (String.mk f0) Shape.felt := by
  unfold processVar
  rw [hsplit]
  simp [hpack]

/-- Witness for the amended claim C3: the bare repeat `ids.v` overwrites
the established shape `{x}` of `v` with `felt`. -/
theorem c3_amended_bare_overwrites_w :
    (splitP (fun c => c = '.') ("ids.v".data)).drop 1 = ["v".data] ∧
    var_in_pack ("ids.a = ids.v.x + ids.v".data) ("v".data) = false ∧
    processVar ("ids.a = ids.v.x + ids.v".data) ("ids.v".data)
      [("v", Shape.fields ["x"])] = [("v", Shape.felt)] := by
  refine ⟨by decide, by decide, ?_⟩
  rw [c3_amended_bare_overwrites ("ids.a = ids.v.x + ids.v".data)
    ("ids.v".data) [("v", Shape.fields ["x"])] ("v".data) (by decide) (by decide)]
  decide

/-- Claim C4.  For `ids.a = ids.b.x + ids.b.y`, `b` is an Input with shape
`{x, y}`, `a` an Output with scalar shape, and the assembled program is
exactly: one struct declaration for `{x, y}`, a `main` constructing `b`
and calling `hint_func(b)`, and a `hint_func` with parameter `b`, one
local `a` and `return(a)`. -/
theorem c4_scenario :
    classify_variables "ids.a = ids.b.x + ids.b.y" =
      ([("b", Shape.fields ["x", "y"])], [("a", Shape.felt)], []) ∧
    generate_cairo_hint_program "ids.a = ids.b.x + ids.b.y" = some
      ["struct MyStruct0 \x7b", "\tx: felt,", "\ty: felt,", "\x7d",
       "func main() \x7b", "\tlet b = MyStruct0(x=, y=);", "\thint_func(b);",
       "\treturn();", "\x7d",
       "func hint_func(b: MyStruct0) -> felt \x7b", "\talloc_locals;",
       "\tlocal a: felt;", "%\x7b", "ids.a = ids.b.x + ids.b.y", "%\x7d",
       "\treturn(a);", "\x7d"] :=
  ⟨by decide, by decide⟩

/-- Claim C7.  A name that appears only in the Output bucket of the raw
classification (in neither the raw Input nor the Inout bucket) is absent
from the merged Input mapping that `classify_variables` returns. -/
theorem c7_output_only_not_in_merged_input (hint : String) (n : String)
    (hout : dictGet? (classify_variables_raw hint).2.1 n ≠ none)
    (hin : dictGet? (classify_variables_raw hint).1 n = none)
    (hio : dictGet? (classify_variables_raw hint).2.2 n = none) :
    dictGet? (classify_variables hint).1 n = none := by
  have hcv : (classify_variables hint).1
      = dictMerge (classify_variables_raw hint).1 (classify_variables_raw hint).2.2 := rfl
  rw [hcv]
  exact dictMerge_get_none _ _ _ hin hio

/-- Witness for claim C7 at `ids.a = ids.b` with the output-only name `a`. -/
theorem c7_output_only_not_in_merged_input_w :
    dictGet? (classify_variables_raw "ids.a = ids.b").2.1 "a" ≠ none ∧
    dictGet? (classify_variables_raw "ids.a = ids.b").1 "a" = none ∧
    dictGet? (classify_variables_raw "ids.a = ids.b").2.2 "a" = none ∧
    dictGet? (classify_variables "ids.a = ids.b").1 "a" = none :=
  ⟨by decide, by decide, by decide,
    c7_output_only_not_in_merged_input "ids.a = ids.b" "a"
      (by decide) (by decide) (by decide)⟩

/-- Claim C8.  A hint-code string without any occurrence of the qualifying
prefix `ids.` classifies to three empty mappings. -/
theorem c8_no_prefix_empty (hint : String)
    (h : pyIn ("ids.".data) hint.data = false) :
    classify_variables hint = ([], [], []) := by
  have hfil : (splitP (fun c => c = '\n') hint.data).filter
      (fun l => pyIn ("ids.".data) l) = [] := by
    rw [List.filter_eq_nil_iff]
    intro l hl hcon
    obtain ⟨x, y, hy⟩ := pyIn_ex hcon
    obtain ⟨u, w, hw⟩ := splitP_mem_ex _ hint.data l hl
    have htrue : pyIn ("ids.".data) hint.data = true := by
      rw [hw, hy]
      have hassoc : u ++ (x ++ "ids.".data ++ y) ++ w
          = (u ++ x) ++ "ids.".data ++ (y ++ w) := by
        simp [List.append_assoc]
      rw [hassoc]
      exact pyIn_parts _ _ _
    rw [h] at htrue
    exact Bool.noConfusion htrue
  unfold classify_variables classify_variables_raw
  rw [hfil]
  rfl

/-- Witness for claim C8 at the prefix-free hint `x = y`. -/
theorem c8_no_prefix_empty_w :
    pyIn ("ids.".data) "x = y".data = false ∧
    classify_variables "x = y" = ([], [], []) :=
  ⟨by decide, c8_no_prefix_empty "x = y" (by decide)⟩

/-- Claim C5.  When the assembler returns a line sequence, that sequence
decomposes as declarations ++ calling routine ++ hint routine, and every
synthetic type name referenced by the calling routine or the hint-routine
signature has its `struct` declaration line inside the declaration prefix,
i.e. at an index smaller than the index of every calling-routine or
hint-routine line. -/
theorem c5_referenced_types_declared (hint : String) (out : List String)
    (hg : generate_cairo_hint_program hint = some out) :
    (∃ m h,
      mainLines (classify_variables hint).1 (classify_variables hint).2.1 = some m ∧
      hintFuncLines hint (classify_variables hint).1 (classify_variables hint).2.1
        (classify_variables hint).2.2 = some h ∧
      out = declLines (classify_variables hint).1 (classify_variables hint).2.1 ++ m ++ h) ∧
    (∀ n ∈ referencedTypeNames hint,
      ∃ k, k < (declLines (classify_variables hint).1 (classify_variables hint).2.1).length ∧
        out.get? k = some ("struct " ++ n ++ " \x7b")) := by
  simp only [generate_cairo_hint_program] at hg
  cases hm : mainLines (classify_variables hint).1 (classify_variables hint).2.1 with
  | none => rw [hm] at hg; simp at hg
  | some m =>
    cases hh : hintFuncLines hint (classify_variables hint).1 (classify_variables hint).2.1
        (classify_variables hint).2.2 with
    | none => rw [hm, hh] at hg; simp at hg
    | some h =>
      rw [hm, hh] at hg
      simp only [Option.some.injEq] at hg
      constructor
      · exact ⟨m, h, rfl, rfl, hg.symm⟩
      · intro n hn
        simp only [referencedTypeNames] at hn
        rw [List.mem_filterMap] at hn
        obtain ⟨s, _, hfs⟩ := hn
        cases hls : structLookup
            (structsDict (classify_variables hint).1 (classify_variables hint).2.1) s with
        | none => rw [hls] at hfs; simp at hfs
        | some n0 =>
          rw [hls] at hfs
          simp only [] at hfs
          by_cases hef : n0 = "felt"
          · rw [if_pos hef] at hfs; exact absurd hfs (by simp)
          · rw [if_neg hef] at hfs
            injection hfs with hfs1
            subst hfs1
            have hmem := header_mem_declLines hls hef
            obtain ⟨k, hk⟩ := List.mem_iff_get?.mp hmem
            obtain ⟨hlt, _⟩ := List.get?_eq_some.mp hk
            refine ⟨k, hlt, ?_⟩
            rw [← hg]
            have hlt2 : k < (declLines (classify_variables hint).1
                (classify_variables hint).2.1 ++ m).length := by
              rw [List.length_append]
              exact Nat.lt_of_lt_of_le hlt (Nat.le_add_right _ _)
            rw [List.get?_append hlt2, List.get?_append hlt]
            exact hk

/-- Witness for claim C5 at `ids.a = ids.b.x`. -/
theorem c5_referenced_types_declared_w :
    (∃ m h,
      mainLines (classify_variables "ids.a = ids.b.x").1
        (classify_variables "ids.a = ids.b.x").2.1 = some m ∧
      hintFuncLines "ids.a = ids.b.x" (classify_variables "ids.a = ids.b.x").1
        (classify_variables "ids.a = ids.b.x").2.1
        (classify_variables "ids.a = ids.b.x").2.2 = some h ∧
      ["struct MyStruct0 \x7b", "\tx: felt,", "\x7d", "func main() \x7b",
       "\tlet b = MyStruct0(x=);", "\thint_func(b);", "\treturn();", "\x7d",
       "func hint_func(b: MyStruct0) -> felt \x7b", "\talloc_locals;",
       "\tlocal a: felt;", "%\x7b", "ids.a = ids.b.x", "%\x7d", "\treturn(a);",
       "\x7d"]
        = declLines (classify_variables "ids.a = ids.b.x").1
            (classify_variables "ids.a = ids.b.x").2.1 ++ m ++ h) ∧
    (∀ n ∈ referencedTypeNames "ids.a = ids.b.x",
      ∃ k, k < (declLines (classify_variables "ids.a = ids.b.x").1
          (classify_variables "ids.a = ids.b.x").2.1).length ∧
        (["struct MyStruct0 \x7b", "\tx: felt,", "\x7d", "func main() \x7b",
          "\tlet b = MyStruct0(x=);", "\thint_func(b);", "\treturn();", "\x7d",
          "func hint_func(b: MyStruct0) -> felt \x7b", "\talloc_locals;",
          "\tlocal a: felt;", "%\x7b", "ids.a = ids.b.x", "%\x7d", "\treturn(a);",
          "\x7d"] : List String).get? k = some ("struct " ++ n ++ " \x7b")) :=
  c5_referenced_types_declared "ids.a = ids.b.x"
    ["struct MyStruct0 \x7b", "\tx: felt,", "\x7d", "func main() \x7b",
     "\tlet b = MyStruct0(x=);", "\thint_func(b);", "\treturn();", "\x7d",
     "func hint_func(b: MyStruct0) -> felt \x7b", "\talloc_locals;",
     "\tlocal a: felt;", "%\x7b", "ids.a = ids.b.x", "%\x7d", "\treturn(a);",
     "\x7d"] (by decide)

theorem returnTypeSpec_eq (ns : List String) (hne : ns.length ≠ 1) :
    returnTypeSpec ns = "(" ++ String.intercalate ", " ns ++ ")" := by
  match ns with
  | [] => rfl
  | [t] => exact absurd rfl hne
  | a :: b :: ts => rfl

theorem sigAssoc (P X : String) :
    "(" ++ P ++ ") -> (" ++ X ++ ")" = "(" ++ P ++ ") -> " ++ ("(" ++ X ++ ")") := by
  apply String.ext
  have h : (") -> (" : String).data = (") -> " : String).data ++ ("(" : String).data := by
    decide
  simp [String.data_append, h, List.append_assoc]

/-- Claim C6.  The first line of the emitted hint routine carries the
signature, whose return-type segment is the single bare type name of the
unique `output | inout` entry when that combined mapping has exactly one
entry, and otherwise the parenthesized comma join of the type names of its
entries, one per entry in mapping order (`ns` is the lookup image of the
combined mapping, so `ns.length` equals the number of entries). -/
theorem c6_return_type_arity (hint : String) (hl : List String)
    (hh : hintFuncLines hint (classify_variables hint).1 (classify_variables hint).2.1
      (classify_variables hint).2.2 = some hl) :
    ∃ ps ns,
      mapOpt (paramText (structsDict (classify_variables hint).1
        (classify_variables hint).2.1)) (classify_variables hint).1 = some ps ∧
      combinedNames (structsDict (classify_variables hint).1
        (classify_variables hint).2.1) (classify_variables hint).2.1
        (classify_variables hint).2.2 = some ns ∧
      ns.length = (dictMerge (classify_variables hint).2.1
        (classify_variables hint).2.2).length ∧
      hl.head? = some ("func hint_func"
        ++ ("(" ++ String.intercalate ", " ps ++ ") -> " ++ returnTypeSpec ns)
        ++ " \x7b") := by
  unfold hintFuncLines at hh
  cases hs : signatureText (classify_variables hint).1 (classify_variables hint).2.1
      (classify_variables hint).2.2 with
  | none => rw [hs] at hh; simp at hh
  | some sig =>
    cases hlo : mapOpt (localLine (structsDict (classify_variables hint).1
        (classify_variables hint).2.1)) (classify_variables hint).2.1 with
    | none => rw [hs, hlo] at hh; simp at hh
    | some locs =>
      rw [hs, hlo] at hh
      simp only [Option.some.injEq] at hh
      have hhead : hl.head? = some ("func hint_func" ++ sig ++ " \x7b") := by
        rw [← hh]; rfl
      unfold signatureText at hs
      cases hp : mapOpt (paramText (structsDict (classify_variables hint).1
          (classify_variables hint).2.1)) (classify_variables hint).1 with
      | none => rw [hp] at hs; simp at hs
      | some ps =>
        cases hn : combinedNames (structsDict (classify_variables hint).1
            (classify_variables hint).2.1) (classify_variables hint).2.1
            (classify_variables hint).2.2 with
        | none => rw [hp, hn] at hs; simp at hs
        | some ns =>
          rw [hp, hn] at hs
          simp only [Option.some.injEq] at hs
          have hlen : ns.length = (dictMerge (classify_variables hint).2.1
              (classify_variables hint).2.2).length :=
            mapOpt_len _ _ _ hn
          refine ⟨ps, ns, rfl, rfl, hlen, ?_⟩
          rw [hhead]
          by_cases hL : (dictMerge (classify_variables hint).2.1
              (classify_variables hint).2.2).length = 1
          · rw [if_pos hL] at hs
            obtain ⟨t, ht⟩ := List.length_eq_one.mp (by rw [hlen]; exact hL)
            subst ht
            rw [← hs, strJoin_one]
            rfl
          · rw [if_neg hL] at hs
            rw [← hs, returnTypeSpec_eq ns (by rw [hlen]; exact hL), sigAssoc]

/-- Witness for claim C6 at `ids.a = ids.b` and a newline and `ids.c = ids.d`
(two combined output entries, so a parenthesized return type). -/
theorem c6_return_type_arity_w :
    ∃ ps ns,
      mapOpt (paramText (structsDict (classify_variables "ids.a = ids.b\nids.c = ids.d").1
        (classify_variables "ids.a = ids.b\nids.c = ids.d").2.1))
        (classify_variables "ids.a = ids.b\nids.c = ids.d").1 = some ps ∧
      combinedNames (structsDict (classify_variables "ids.a = ids.b\nids.c = ids.d").1
        (classify_variables "ids.a = ids.b\nids.c = ids.d").2.1)
        (classify_variables "ids.a = ids.b\nids.c = ids.d").2.1
        (classify_variables "ids.a = ids.b\nids.c = ids.d").2.2 = some ns ∧
      ns.length = (dictMerge (classify_variables "ids.a = ids.b\nids.c = ids.d").2.1
        (classify_variables "ids.a = ids.b\nids.c = ids.d").2.2).length ∧
      (["func hint_func(b: felt, d: felt) -> (felt, felt) \x7b", "\talloc_locals;",
        "\tlocal a: felt;", "\tlocal c: felt;", "%\x7b", "ids.a = ids.b",
        "ids.c = ids.d", "%\x7d", "\treturn(a, c);", "\x7d"] : List String).head?
        = some ("func hint_func"
          ++ ("(" ++ String.intercalate ", " ps ++ ") -> " ++ returnTypeSpec ns)
          ++ " \x7b") :=
  c6_return_type_arity "ids.a = ids.b\nids.c = ids.d"
    ["func hint_func(b: felt, d: felt) -> (felt, felt) \x7b", "\talloc_locals;",
     "\tlocal a: felt;", "\tlocal c: felt;", "%\x7b", "ids.a = ids.b",
     "ids.c = ids.d", "%\x7d", "\treturn(a, c);", "\x7d"] (by decide)

theorem parenEmptyRet (P : String) :
    "(" ++ P ++ ") -> (" ++ String.intercalate ", " ([] : List String) ++ ")"
      = "(" ++ P ++ ") -> ()" := by
  have h0 : String.intercalate ", " ([] : List String) = "" := rfl
  rw [h0]
  apply String.ext
  simp [String.data_append, List.append_assoc]

/-- Claim C10.  With no combined output entry, the multi-entry branch
renders the return type as the empty parenthesized list `()`, and the
hint routine's own return statement carries no values: the hint-routine
line block (the final segment of the output, after the declarations and
the calling routine) ends with the line `\treturn();` followed only by
the routine's closing brace. -/
theorem c10_empty_return (hint : String) (out : List String)
    (hg : generate_cairo_hint_program hint = some out)
    (hc : dictMerge (classify_variables hint).2.1 (classify_variables hint).2.2 = []) :
    (∃ ps,
      mapOpt (paramText (structsDict (classify_variables hint).1
        (classify_variables hint).2.1)) (classify_variables hint).1 = some ps ∧
      signatureText (classify_variables hint).1 (classify_variables hint).2.1
        (classify_variables hint).2.2
        = some ("(" ++ String.intercalate ", " ps ++ ") -> ()")) ∧
    (∃ m h pre,
      mainLines (classify_variables hint).1 (classify_variables hint).2.1 = some m ∧
      hintFuncLines hint (classify_variables hint).1 (classify_variables hint).2.1
        (classify_variables hint).2.2 = some h ∧
      out = declLines (classify_variables hint).1 (classify_variables hint).2.1
        ++ m ++ h ∧
      h = pre ++ ["\treturn();", "\x7d"]) := by
  simp only [generate_cairo_hint_program] at hg
  cases hm : mainLines (classify_variables hint).1 (classify_variables hint).2.1 with
  | none => rw [hm] at hg; simp at hg
  | some m =>
    cases hh : hintFuncLines hint (classify_variables hint).1 (classify_variables hint).2.1
        (classify_variables hint).2.2 with
    | none => rw [hm, hh] at hg; simp at hg
    | some h =>
      rw [hm, hh] at hg
      simp only [Option.some.injEq] at hg
      have hh0 := hh
      unfold hintFuncLines at hh0
      cases hs : signatureText (classify_variables hint).1 (classify_variables hint).2.1
          (classify_variables hint).2.2 with
      | none => rw [hs] at hh0; simp at hh0
      | some sig =>
        cases hlo : mapOpt (localLine (structsDict (classify_variables hint).1
            (classify_variables hint).2.1)) (classify_variables hint).2.1 with
        | none => rw [hs, hlo] at hh0; simp at hh0
        | some locs =>
          rw [hs, hlo] at hh0
          simp only [Option.some.injEq] at hh0
          have hs0 := hs
          unfold signatureText at hs0
          cases hp : mapOpt (paramText (structsDict (classify_variables hint).1
              (classify_variables hint).2.1)) (classify_variables hint).1 with
          | none => rw [hp] at hs0; simp at hs0
          | some ps =>
            have hn : combinedNames (structsDict (classify_variables hint).1
                (classify_variables hint).2.1) (classify_variables hint).2.1
                (classify_variables hint).2.2 = some [] := by
              unfold combinedNames
              rw [hc]
              rfl
            rw [hp, hn] at hs0
            simp only [Option.some.injEq] at hs0
            have hL : ¬ ((dictMerge (classify_variables hint).2.1
                (classify_variables hint).2.2).length = 1) := by
              rw [hc]
              simp
            rw [if_neg hL] at hs0
            constructor
            · refine ⟨ps, rfl, ?_⟩
              rw [← hs0, parenEmptyRet]
            · have hret : "\treturn(" ++ String.intercalate ", "
                  ((dictMerge (classify_variables hint).2.1
                    (classify_variables hint).2.2).map (fun p => p.1)) ++ ");"
                  = "\treturn();" := by
                rw [hc]
                decide
              refine ⟨m, h,
                ["func hint_func" ++ sig ++ " \x7b", "\talloc_locals;"]
                  ++ joinedLines locs ++ ["%\x7b"]
                  ++ (splitP (fun c => c = '\n') hint.data).map String.mk
                  ++ ["%\x7d"],
                rfl, rfl, hg.symm, ?_⟩
              rw [← hh0, hret]
              simp [List.append_assoc]

/-- Witness for claim C10 at the prefix-free hint `abc` (no variables at
all, hence no combined output entry): the hint-routine block ends with
`\treturn();` and the closing brace. -/
theorem c10_empty_return_w :
    (∃ ps,
      mapOpt (paramText (structsDict (classify_variables "abc").1
        (classify_variables "abc").2.1)) (classify_variables "abc").1 = some ps ∧
      signatureText (classify_variables "abc").1 (classify_variables "abc").2.1
        (classify_variables "abc").2.2
        = some ("(" ++ String.intercalate ", " ps ++ ") -> ()")) ∧
    (∃ m h pre,
      mainLines (classify_variables "abc").1 (classify_variables "abc").2.1 = some m ∧
      hintFuncLines "abc" (classify_variables "abc").1 (classify_variables "abc").2.1
        (classify_variables "abc").2.2 = some h ∧
      (["", "func main() \x7b", "\thint_func();", "\treturn();", "\x7d",
        "func hint_func() -> () \x7b", "\talloc_locals;", "", "%\x7b", "abc",
        "%\x7d", "\treturn();", "\x7d"] : List String)
        = declLines (classify_variables "abc").1 (classify_variables "abc").2.1
          ++ m ++ h ∧
      h = pre ++ ["\treturn();", "\x7d"]) :=
  c10_empty_return "abc"
    ["", "func main() \x7b", "\thint_func();", "\treturn();", "\x7d",
     "func hint_func() -> () \x7b", "\talloc_locals;", "", "%\x7b", "abc",
     "%\x7d", "\treturn();", "\x7d"] (by decide) (by decide)

theorem assembler_total (hint : String) (i o io : Dict)
    (hin : ∀ p ∈ i, (structLookup (structsDict i o) p.2).isSome = true)
    (hloc : ∀ p ∈ o, (structLookup (structsDict i o) p.2).isSome = true)
    (hcomb : ∀ p ∈ dictMerge o io, (structLookup (structsDict i o) p.2).isSome = true) :
    (mainLines i o).isSome = true ∧ (hintFuncLines hint i o io).isSome = true := by
  have hasg : (mapOpt (assignLine (structsDict i o)) i).isSome = true := by
    apply mapOpt_isSome
    intro p hp
    obtain ⟨t, ht⟩ := Option.isSome_iff_exists.mp (hin p hp)
    simp [assignLine, ht]
  have hps : (mapOpt (paramText (structsDict i o)) i).isSome = true := by
    apply mapOpt_isSome
    intro p hp
    obtain ⟨t, ht⟩ := Option.isSome_iff_exists.mp (hin p hp)
    simp [paramText, ht]
  have hns : (combinedNames (structsDict i o) o io).isSome = true := by
    unfold combinedNames
    exact mapOpt_isSome _ _ hcomb
  have hlocs : (mapOpt (localLine (structsDict i o)) o).isSome = true := by
    apply mapOpt_isSome
    intro p hp
    obtain ⟨t, ht⟩ := Option.isSome_iff_exists.mp (hloc p hp)
    simp [localLine, ht]
  constructor
  · obtain ⟨asg, hasg2⟩ := Option.isSome_iff_exists.mp hasg
    unfold mainLines
    rw [hasg2]
    rfl
  · obtain ⟨ps, hps2⟩ := Option.isSome_iff_exists.mp hps
    obtain ⟨ns, hns2⟩ := Option.isSome_iff_exists.mp hns
    obtain ⟨locs, hlocs2⟩ := Option.isSome_iff_exists.mp hlocs
    have hsig : ∃ sig, signatureText i o io = some sig := by
      unfold signatureText
      rw [hps2, hns2]
      exact ⟨_, rfl⟩
    obtain ⟨sig, hsig2⟩ := hsig
    unfold hintFuncLines
    rw [hsig2, hlocs2]
    rfl

/-- Claim C9, counterexample.  On `ids.a = ids.v.x` and a second line
`ids.v = ids.b`, the variable `v` carries shape `{x}` in the merged input
mapping but shape `felt` in the output mapping; the `input | output` merge
keeps only the output shape, so `structs_dict[("x",)]` does not exist and
the assembler's lookup fails (a Python `KeyError`, `none` in the model). -/
theorem c9_generate_fails :
    generate_cairo_hint_program "ids.a = ids.v.x\nids.v = ids.b" = none := by
  decide

/-- Claim C9, amended.  `classify_variables` is total, and
`generate_cairo_hint_program` completes whenever every shape it looks up
(the merged input shapes, the output shapes and the combined
output-inout shapes) is the scalar `felt` or occurs among the values of
the `input | output` merge from which `structs_dict` is built; a variable
classified with different shapes in the input and output buckets violates
this condition and makes the lookup fail. -/
theorem c9_amended_total_on_consistent_shapes (hint : String)
    (hcond : ∀ s ∈ shapesNeeded hint,
      s = Shape.felt ∨ s ∈ (dictMerge (classify_variables hint).1
        (classify_variables hint).2.1).map (fun p => p.2)) :
    (generate_cairo_hint_program hint).isSome = true := by
  have hin : ∀ p ∈ (classify_variables hint).1,
      (structLookup (structsDict (classify_variables hint).1
        (classify_variables hint).2.1) p.2).isSome = true := by
    intro p hp
    apply structLookup_isSome
    apply hcond
    simp only [shapesNeeded]
    exact List.mem_append.mpr (Or.inl (List.mem_append.mpr
      (Or.inl (List.mem_map.mpr ⟨p, hp, rfl⟩))))
  have hloc : ∀ p ∈ (classify_variables hint).2.1,
      (structLookup (structsDict (classify_variables hint).1
        (classify_variables hint).2.1) p.2).isSome = true := by
    intro p hp
    apply structLookup_isSome
    apply hcond
    simp only [shapesNeeded]
    exact List.mem_append.mpr (Or.inl (List.mem_append.mpr
      (Or.inr (List.mem_map.mpr ⟨p, hp, rfl⟩))))
  have hcomb : ∀ p ∈ dictMerge (classify_variables hint).2.1
      (classify_variables hint).2.2,
      (structLookup (structsDict (classify_variables hint).1
        (classify_variables hint).2.1) p.2).isSome = true := by
    intro p hp
    apply structLookup_isSome
    apply hcond
    simp only [shapesNeeded]
    exact List.mem_append.mpr (Or.inr (List.mem_map.mpr ⟨p, hp, rfl⟩))
  obtain ⟨hm, hh⟩ := assembler_total hint (classify_variables hint).1
    (classify_variables hint).2.1 (classify_variables hint).2.2 hin hloc hcomb
  obtain ⟨m, hm2⟩ := Option.isSome_iff_exists.mp hm
  obtain ⟨h, hh2⟩ := Option.isSome_iff_exists.mp hh
  simp only [generate_cairo_hint_program]
  rw [hm2, hh2]
  rfl

/-- Witness for the amended claim C9 at `ids.m = ids.n` (all shapes are
scalar `felt`, so every lookup is defined and assembly completes). -/
theorem c9_amended_total_on_consistent_shapes_w :
    (∀ s ∈ shapesNeeded "ids.m = ids.n",
      s = Shape.felt ∨ s ∈ (dictMerge (classify_variables "ids.m = ids.n").1
        (classify_variables "ids.m = ids.n").2.1).map (fun p => p.2)) ∧
    (generate_cairo_hint_program "ids.m = ids.n").isSome = true :=
  ⟨by decide, c9_amended_total_on_consistent_shapes "ids.m = ids.n" (by decide)⟩
